import Mathlib

/-!
Verification of the stock-monitoring program `StocksTradeSignal.py`.

The program polls price bars for a watchlist, computes a fast and a slow
simple moving average and an RSI oscillator, detects crossover buy/sell
signals, deduplicates repeated signals per symbol, notifies by email and
appends an audit record to a CSV log.

Embedding conventions:
  - close prices are rationals (`ℚ`); a pandas `NaN` cell is `Option.none`,
    and comparisons against `none` are `false`, mirroring IEEE comparisons
    against NaN in Python;
  - the per-symbol dictionary `last_signals` is an association list;
  - fallible effects (SMTP send, CSV write, data fetch) are modelled by
    explicit success flags / `Except` values threaded into the step
    functions, and an exception is a distinguished outcome value.
-/

/-- Simple moving average of `closes` with window `w` at row index `i`,
mirroring `df['close'].rolling(window=w).mean()` in `compute_indicators`
(line 58/59): defined once `w` rows ending at `i` exist, `NaN` (`none`)
before that. -/
def sma (w : ℕ) (closes : List ℚ) (i : ℕ) : Option ℚ :=
  if w ≤ i + 1 ∧ i < closes.length then
    some (((closes.drop (i + 1 - w)).take w).sum / w)
  else none

/-- Bar-to-bar close differences: entry `j` is `closes[j+1] - closes[j]`,
the delta belonging to bar `j+1` (pandas `close.diff(1)` shifted by one). -/
def deltas (closes : List ℚ) : List ℚ :=
  List.zipWith (fun a b => b - a) closes closes.tail

/-- Positive part of a delta (a gain). -/
def gainOf (d : ℚ) : ℚ := max d 0

/-- Negative part of a delta, as a nonnegative loss. -/
def lossOf (d : ℚ) : ℚ := max (-d) 0

/-- Modelled from the spec: average gain over the trailing `n` deltas ending
at bar `i`. The oscillator itself is produced by the external `ta` library
(`RSIIndicator(...).rsi()`, line 60), whose source is not part of this
repository; the spec prescribes the average-gain / average-loss
formulation over the trailing `oscillatorWindow` deltas. -/
def avgGainAt (n : ℕ) (closes : List ℚ) (i : ℕ) : ℚ :=
  ((((deltas closes).drop (i - n)).take n).map gainOf).sum / n

/-- Modelled from the spec: average loss over the trailing `n` deltas ending
at bar `i`; see `avgGainAt`. -/
def avgLossAt (n : ℕ) (closes : List ℚ) (i : ℕ) : ℚ :=
  ((((deltas closes).drop (i - n)).take n).map lossOf).sum / n

/-- Modelled from the spec: the momentum oscillator (RSI) at row `i`:
`100 - 100 / (1 + avgGain / avgLoss)`, equal to `100` when the average
loss is zero, and undefined while fewer than `n` trailing deltas exist
(bar `i` has exactly `i` trailing deltas). -/
def rsiAt (n : ℕ) (closes : List ℚ) (i : ℕ) : Option ℚ :=
  if n ≤ i ∧ i < closes.length then
    some (if avgLossAt n closes i = 0 then 100
          else 100 - 100 / (1 + avgGainAt n closes i / avgLossAt n closes i))
  else none

/-- One row of the indicator frame: the columns `sma_fast`, `sma_slow`,
`rsi` that `compute_indicators` adds to the dataframe; `none` is `NaN`. -/
structure Entry where
  sma_fast : Option ℚ
  sma_slow : Option ℚ
  rsi : Option ℚ
deriving DecidableEq, Repr

/-- Embedding of `compute_indicators` (lines 56-61): from the close column
build the aligned indicator columns, one `Entry` per input row. -/
def compute_indicators (fastW slowW rsiW : ℕ) (closes : List ℚ) : List Entry :=
  (List.range closes.length).map fun i =>
    { sma_fast := sma fastW closes i
      sma_slow := sma slowW closes i
      rsi := rsiAt rsiW closes i }

/-- Trading signal; `detect_signals` returning `None` is `Option.none`. -/
inductive Signal where
  | buy
  | sell
deriving DecidableEq, Repr

/-- Comparison `x <= y` on optional values with NaN semantics: any
comparison involving an undefined value is `false`, as in Python floats. -/
def ole (x y : Option ℚ) : Bool :=
  match x, y with
  | some a, some b => decide (a ≤ b)
  | _, _ => false

/-- Comparison `x < y` with NaN semantics; see `ole`. -/
def olt (x y : Option ℚ) : Bool :=
  match x, y with
  | some a, some b => decide (a < b)
  | _, _ => false

/-- Comparison `x >= y` with NaN semantics; see `ole`. -/
def oge (x y : Option ℚ) : Bool :=
  match x, y with
  | some a, some b => decide (b ≤ a)
  | _, _ => false

/-- Comparison `x > y` with NaN semantics; see `ole`. -/
def ogt (x y : Option ℚ) : Bool :=
  match x, y with
  | some a, some b => decide (b < a)
  | _, _ => false

/-- Line 76: `cross_up = (prev_fast <= prev_slow) and (last_fast > last_slow)`. -/
def cross_up (prev last : Entry) : Bool :=
  ole prev.sma_fast prev.sma_slow && ogt last.sma_fast last.sma_slow

/-- Line 77: `cross_down = (prev_fast >= prev_slow) and (last_fast < last_slow)`. -/
def cross_down (prev last : Entry) : Bool :=
  oge prev.sma_fast prev.sma_slow && olt last.sma_fast last.sma_slow

/-- Row of all-`NaN` indicator values. -/
def defaultEntry : Entry := ⟨none, none, none⟩

/-- The last row of the frame, `df.iloc[[-1]]` (line 67). -/
def lastEntry (frame : List Entry) : Entry :=
  frame.getD (frame.length - 1) defaultEntry

/-- The second-to-last row of the frame, `df.iloc[[-2]]` (line 68). -/
def prevEntry (frame : List Entry) : Entry :=
  frame.getD (frame.length - 2) defaultEntry

/-- Embedding of `detect_signals` (lines 63-83): guard on the row count,
then classify the last two rows by the crossover and oscillator tests.
`oversold` and `overbought` are the configured `RSI_OVERSOLD` and
`RSI_OVERBOUGHT` thresholds, `fastW`/`slowW` the SMA windows. -/
def detect_signals (fastW slowW : ℕ) (oversold overbought : ℚ)
    (frame : List Entry) : Option Signal :=
  if frame.length < max fastW slowW + 1 then none
  else
    let last := lastEntry frame
    let prev := prevEntry frame
    if cross_up prev last && ogt last.rsi (some oversold) then some Signal.buy
    else if cross_down prev last && olt last.rsi (some overbought) then some Signal.sell
    else none

/-- The `last_signals` dictionary of `main_loop` (line 94), keyed by symbol. -/
abbrev Memory := List (String × Signal)

/-- Dictionary lookup, `last_signals.get(symbol)` (line 108): `none` when
the symbol has no stored signal. -/
def lookupSignal : Memory → String → Option Signal
  | [], _ => none
  | (s, v) :: rest, sym => if s = sym then some v else lookupSignal rest sym

/-- The dedup gate of line 108: `last_signals.get(symbol) != sig`, true when
nothing is stored for the symbol or the stored signal differs. -/
def shouldEmit (m : Memory) (sym : String) (sig : Signal) : Bool :=
  decide (lookupSignal m sym ≠ some sig)

/-- The dictionary assignment `last_signals[symbol] = sig` (line 113):
overwrite the symbol's entry, or add one if absent. -/
def record (m : Memory) (sym : String) (sig : Signal) : Memory :=
  match m with
  | [] => [(sym, sig)]
  | (s, v) :: rest => if s = sym then (s, sig) :: rest else (s, v) :: record rest sym sig

/-- One row logged by `log_signal` (line 86). -/
structure LogRecord where
  timestamp : String
  symbol : String
  signal : String
  price : ℚ
  extra : String
deriving DecidableEq, Repr

/-- One physical line of the CSV log: the header line or a data row. -/
inductive CsvLine where
  | header
  | row (r : LogRecord)
deriving DecidableEq, Repr

/-- State of the log file: `none` while the file does not exist, otherwise
its lines in order. -/
abbrev LogStore := Option (List CsvLine)

/-- Model of `DataFrame.to_csv` on the log path: append mode adds the
written lines after the existing content, write mode creates (or would
truncate to) exactly the written lines; the header line is emitted only
when `withHeader` is set. -/
def to_csv (store : LogStore) (append withHeader : Bool) (r : LogRecord) : LogStore :=
  let content := (if withHeader then [CsvLine.header] else []) ++ [CsvLine.row r]
  match store, append with
  | some old, true => some (old ++ content)
  | _, _ => some content

/-- Embedding of `log_signal` (lines 85-91): if the file does not exist,
write it with a header (`to_csv(LOG_FILE, index=False)`); otherwise append
the single row with `mode='a', header=False`. -/
def log_signal (store : LogStore) (r : LogRecord) : LogStore :=
  match store with
  | none => to_csv store false true r
  | some _ => to_csv store true false r

/-- Per-symbol inputs for one pass of the loop body: the symbol, the fetch
result (`Except.error` models `fetch_ohlcv` raising), and success flags for
the SMTP transport and the CSV write. -/
structure SymInput where
  symbol : String
  fetch : Except Unit (List ℚ)
  transportOk : Bool
  logOk : Bool

/-- Observable outcome of processing one symbol in one cycle. -/
inductive SymOutcome where
  | errorCaught
  | skippedEmpty
  | checkedNoEmit
  | emitted (sig : Signal)
deriving DecidableEq, Repr

/-- Whether an exception escapes `send_email` (lines 31-44): never, because
the function wraps the whole SMTP interaction in `try/except Exception`
and only logs the failure, whatever the transport did. -/
def send_email_raises (_transportOk : Bool) : Bool := false

/-- Whether an exception escapes `log_signal`'s file write: yes exactly
when the write fails, since nothing catches it locally (lines 85-91). -/
def log_write_raises (logOk : Bool) : Bool := !logOk

/-- Embedding of the per-symbol body of `main_loop` (lines 97-115) under
the configuration `fastW/slowW/rsiW/oversold/overbought`: fetch, skip on
empty, compute indicators, detect, dedup-gate, notify + log + record, with
any escaping exception caught at the per-symbol `except` boundary
(line 114), which leaves the memory untouched. -/
def process_symbol (fastW slowW rsiW : ℕ) (oversold overbought : ℚ)
    (inp : SymInput) (m : Memory) : Memory × SymOutcome :=
  match inp.fetch with
  | Except.error _ => (m, SymOutcome.errorCaught)
  | Except.ok bars =>
    if bars.isEmpty then (m, SymOutcome.skippedEmpty)
    else
      let frame := compute_indicators fastW slowW rsiW bars
      match detect_signals fastW slowW oversold overbought frame with
      | some sig =>
        if shouldEmit m inp.symbol sig then
          if send_email_raises inp.transportOk then (m, SymOutcome.errorCaught)
          else if log_write_raises inp.logOk then (m, SymOutcome.errorCaught)
          else (record m inp.symbol sig, SymOutcome.emitted sig)
        else (m, SymOutcome.checkedNoEmit)
      | none => (m, SymOutcome.checkedNoEmit)

/-- One cycle of `main_loop` (the `for symbol in WATCHLIST` body, lines
96-115): process each symbol in order, threading the dedup memory and
collecting one outcome per symbol. -/
def run_cycle (fastW slowW rsiW : ℕ) (oversold overbought : ℚ)
    (inputs : List SymInput) (m : Memory) : Memory × List SymOutcome :=
  match inputs with
  | [] => (m, [])
  | inp :: rest =>
    let r := process_symbol fastW slowW rsiW oversold overbought inp m
    let rr := run_cycle fastW slowW rsiW oversold overbought rest r.1
    (rr.1, r.2 :: rr.2)

theorem ole_none_left (y : Option ℚ) : ole none y = false := rfl

theorem ole_none_right (x : Option ℚ) : ole x none = false := by cases x <;> rfl

theorem olt_none_left (y : Option ℚ) : olt none y = false := rfl

theorem olt_none_right (x : Option ℚ) : olt x none = false := by cases x <;> rfl

theorem oge_none_left (y : Option ℚ) : oge none y = false := rfl

theorem oge_none_right (x : Option ℚ) : oge x none = false := by cases x <;> rfl

theorem ogt_none_left (y : Option ℚ) : ogt none y = false := rfl

theorem ogt_none_right (x : Option ℚ) : ogt x none = false := by cases x <;> rfl

theorem lookupSignal_record (m : Memory) (sym : String) (sig : Signal) :
    lookupSignal (record m sym sig) sym = some sig := by
  induction m with
  | nil => simp [record, lookupSignal]
  | cons hd tl ih =>
    obtain ⟨s, v⟩ := hd
    by_cases h : s = sym <;> simp [record, lookupSignal, h, ih]

/-- C6: the dedup gate fires exactly when the new signal differs from the
stored one (or none is stored); it is a pure read; after recording a buy
for a symbol, a buy for that symbol is suppressed while a sell still
passes; nothing ever erases a stored signal by itself. -/
theorem shouldEmit_record_spec (m : Memory) (S : String) (sig : Signal) :
    (shouldEmit m S sig = true ↔ lookupSignal m S ≠ some sig) ∧
    shouldEmit (record m S Signal.buy) S Signal.buy = false ∧
    shouldEmit (record m S Signal.buy) S Signal.sell = true := by
  refine ⟨by simp [shouldEmit], ?_, ?_⟩ <;> simp [shouldEmit, lookupSignal_record]

theorem shouldEmit_record_spec_witness :
    (shouldEmit [] "X" Signal.buy = true ↔ lookupSignal [] "X" ≠ some Signal.buy) ∧
    shouldEmit (record [] "X" Signal.buy) "X" Signal.buy = false ∧
    shouldEmit (record [] "X" Signal.buy) "X" Signal.sell = true :=
  shouldEmit_record_spec [] "X" Signal.buy

/-- C9: the first write creates the log store as a header line followed by
the one record; every later write appends exactly that one record after
the existing lines, with no second header and all prior lines intact. -/
theorem log_signal_append_spec :
    (∀ r, log_signal none r = some [CsvLine.header, CsvLine.row r]) ∧
    (∀ old r, log_signal (some old) r = some (old ++ [CsvLine.row r])) :=
  ⟨fun _ => rfl, fun _ _ => rfl⟩

/-- C7: a symbol whose fetch yields an empty bar sequence is skipped for
the cycle: the dedup memory is untouched, the outcome is the dedicated
skip marker (no indicator computation, no signal, no exception), and in a
cycle the remaining symbols are processed exactly as before. -/
theorem empty_fetch_skips (fastW slowW rsiW : ℕ) (os ob : ℚ) (sym : String)
    (tOk lOk : Bool) (m : Memory) (rest : List SymInput) :
    process_symbol fastW slowW rsiW os ob ⟨sym, Except.ok [], tOk, lOk⟩ m
      = (m, SymOutcome.skippedEmpty) ∧
    run_cycle fastW slowW rsiW os ob (⟨sym, Except.ok [], tOk, lOk⟩ :: rest) m
      = ((run_cycle fastW slowW rsiW os ob rest m).1,
         SymOutcome.skippedEmpty :: (run_cycle fastW slowW rsiW os ob rest m).2) := by
  exact ⟨rfl, by simp [run_cycle, process_symbol]⟩

/-- C10: the crossover tests of lines 76-77 are mutually exclusive, since
they demand the strict comparisons `last_fast > last_slow` and
`last_fast < last_slow` respectively; hence the detector can never satisfy
the buy branch and the sell branch on the same input. -/
theorem cross_exclusive (prev last : Entry) :
    (cross_up prev last && cross_down prev last) = false := by
  rcases hf : last.sma_fast with _ | a <;> rcases hs : last.sma_slow with _ | b <;>
    simp [cross_up, cross_down, ogt, olt, hf, hs]
  intro h1 h2 h3
  linarith

/-- C3: with fewer rows than `max(FAST_SMA, SLOW_SMA) + 1`, or with an
undefined fast or slow average in either of the two most recent rows,
`detect_signals` returns no-signal; being a total function, it raises
nothing. -/
theorem detect_signals_insufficient (fastW slowW : ℕ) (os ob : ℚ) (frame : List Entry)
    (h : frame.length < max fastW slowW + 1
       ∨ (lastEntry frame).sma_fast = none ∨ (lastEntry frame).sma_slow = none
       ∨ (prevEntry frame).sma_fast = none ∨ (prevEntry frame).sma_slow = none) :
    detect_signals fastW slowW os ob frame = none := by
  unfold detect_signals
  split
  · rfl
  · rename_i hguard
    rcases h with h | h | h | h | h
    · exact absurd h hguard
    · simp [cross_up, cross_down, h, ogt_none_left, olt_none_left]
    · simp [cross_up, cross_down, h, ogt_none_right, olt_none_right]
    · simp [cross_up, cross_down, h, ole_none_left, oge_none_left]
    · simp [cross_up, cross_down, h, ole_none_right, oge_none_right]

theorem detect_signals_insufficient_witness :
    detect_signals 1 1 (0 : ℚ) 100 [] = none :=
  detect_signals_insufficient 1 1 0 100 [] (Or.inl (by decide))

theorem avgGainAt_nonneg (n : ℕ) (closes : List ℚ) (i : ℕ) :
    0 ≤ avgGainAt n closes i := by
  unfold avgGainAt
  apply div_nonneg _ (Nat.cast_nonneg n)
  apply List.sum_nonneg
  intro x hx
  simp only [List.mem_map] at hx
  obtain ⟨d, _, rfl⟩ := hx
  exact le_max_right d 0

theorem avgLossAt_nonneg (n : ℕ) (closes : List ℚ) (i : ℕ) :
    0 ≤ avgLossAt n closes i := by
  unfold avgLossAt
  apply div_nonneg _ (Nat.cast_nonneg n)
  apply List.sum_nonneg
  intro x hx
  simp only [List.mem_map] at hx
  obtain ⟨d, _, rfl⟩ := hx
  exact le_max_right (-d) 0

/-- C4: for a positive window `w` and a row index `i` inside the series,
the rolling mean is absent exactly while fewer than `w` rows exist
(`i < w - 1`) and otherwise equals the arithmetic mean of the `w`-row
slice of closes ending at row `i` inclusive, a slice of length exactly
`w`. -/
theorem sma_trailing_mean (w : ℕ) (closes : List ℚ) (i : ℕ)
    (hw : 0 < w) (hi : i < closes.length) :
    (i < w - 1 → sma w closes i = none) ∧
    (w - 1 ≤ i →
      ((closes.take (i + 1)).drop (i + 1 - w)).length = w ∧
      sma w closes i = some (((closes.take (i + 1)).drop (i + 1 - w)).sum / w)) := by
  constructor
  · intro hlt
    unfold sma
    rw [if_neg]
    rintro ⟨h1, _⟩
    omega
  · intro hge
    constructor
    · simp only [List.length_drop, List.length_take]
      omega
    · unfold sma
      rw [if_pos ⟨by omega, hi⟩]
      have harith : i + 1 - (i + 1 - w) = w := by omega
      rw [List.drop_take, harith]

theorem sma_trailing_mean_witness :
    ((2 : ℕ) < 2 - 1 → sma 2 [1, 2, 4] 2 = none) ∧
    (2 - 1 ≤ 2 →
      ((([1, 2, 4] : List ℚ).take (2 + 1)).drop (2 + 1 - 2)).length = 2 ∧
      sma 2 [1, 2, 4] 2 = some (((([1, 2, 4] : List ℚ).take (2 + 1)).drop (2 + 1 - 2)).sum / 2)) :=
  sma_trailing_mean 2 [1, 2, 4] 2 (by decide) (by decide)

/-- C5: wherever the oscillator is defined its value lies in `[0, 100]`;
it is exactly `100` whenever the average loss over the window is `0`; and
it is undefined while the row has fewer than `n` trailing deltas. -/
theorem rsi_bounds (n : ℕ) (closes : List ℚ) (i : ℕ) :
    (∀ q, rsiAt n closes i = some q →
      0 ≤ q ∧ q ≤ 100 ∧ (avgLossAt n closes i = 0 → q = 100)) ∧
    (i < n → rsiAt n closes i = none) := by
  constructor
  · intro q hq
    unfold rsiAt at hq
    split at hq
    · have hq2 := Option.some.inj hq
      by_cases hz : avgLossAt n closes i = 0
      · rw [if_pos hz] at hq2
        refine ⟨by rw [← hq2]; norm_num, by rw [← hq2], fun _ => hq2.symm⟩
      · rw [if_neg hz] at hq2
        have hL0 := avgLossAt_nonneg n closes i
        have hLpos : 0 < avgLossAt n closes i := lt_of_le_of_ne hL0 (Ne.symm hz)
        have hRS : 0 ≤ avgGainAt n closes i / avgLossAt n closes i :=
          div_nonneg (avgGainAt_nonneg n closes i) hL0
        have hden : (0 : ℚ) < 1 + avgGainAt n closes i / avgLossAt n closes i := by linarith
        have hfrac_pos : (0 : ℚ) < 100 / (1 + avgGainAt n closes i / avgLossAt n closes i) :=
          div_pos (by norm_num) hden
        have hfrac_le : 100 / (1 + avgGainAt n closes i / avgLossAt n closes i) ≤ 100 := by
          rw [div_le_iff₀ hden]
          nlinarith
        refine ⟨by rw [← hq2]; linarith, by rw [← hq2]; linarith, fun hc => absurd hc hz⟩
    · exact absurd hq (by simp)
  · intro hin
    unfold rsiAt
    rw [if_neg]
    rintro ⟨h1, _⟩
    omega

theorem rsi_bounds_witness :
    (0 ≤ (100 : ℚ) ∧ (100 : ℚ) ≤ 100 ∧ (avgLossAt 1 [1, 2] 1 = 0 → (100 : ℚ) = 100)) ∧
    rsiAt 1 [1, 2] 0 = none :=
  ⟨(rsi_bounds 1 [1, 2] 1).1 100
    (by norm_num [rsiAt, avgLossAt, avgGainAt, deltas, gainOf, lossOf]),
   (rsi_bounds 1 [1, 2] 0).2 (by decide)⟩

/-- C1: once enough rows exist and the two most recent rows carry defined
fast/slow averages and a defined oscillator value, the detector is the
exact classification of lines 76-83: buy on a cross up (previous fast
at-or-below slow, last fast strictly above) with oscillator above the
oversold threshold, else sell on a cross down with oscillator below the
overbought threshold, else no-signal. -/
theorem detect_signals_classification (fastW slowW : ℕ) (os ob : ℚ)
    (frame : List Entry) (hlen : max fastW slowW + 1 ≤ frame.length)
    (pf ps lf ls r : ℚ)
    (hpf : (prevEntry frame).sma_fast = some pf)
    (hps : (prevEntry frame).sma_slow = some ps)
    (hlf : (lastEntry frame).sma_fast = some lf)
    (hls : (lastEntry frame).sma_slow = some ls)
    (hr : (lastEntry frame).rsi = some r) :
    detect_signals fastW slowW os ob frame
      = if (pf ≤ ps ∧ ls < lf) ∧ os < r then some Signal.buy
        else if (ps ≤ pf ∧ lf < ls) ∧ r < ob then some Signal.sell
        else none := by
  unfold detect_signals
  rw [if_neg (by omega)]
  simp only [cross_up, cross_down, ole, ogt, oge, olt, hpf, hps, hlf, hls, hr]
  by_cases h1 : pf ≤ ps <;> by_cases h2 : ls < lf <;> by_cases h3 : os < r <;>
    by_cases h4 : ps ≤ pf <;> by_cases h5 : lf < ls <;> by_cases h6 : r < ob <;>
    simp [h1, h2, h3, h4, h5, h6]

theorem detect_signals_classification_witness :
    detect_signals 1 2 (0 : ℚ) 100
      [defaultEntry, ⟨some 4, some 7, none⟩, ⟨some 10, some 7, some 100⟩]
      = some Signal.buy := by
  have h := detect_signals_classification 1 2 (0 : ℚ) 100
    [defaultEntry, ⟨some 4, some 7, none⟩, ⟨some 10, some 7, some 100⟩]
    (by simp) 4 7 10 7 100 rfl rfl rfl rfl rfl
  rw [h]
  norm_num

/-- C8: every symbol of the watchlist receives an outcome every cycle, and
a symbol whose processing raises contributes the caught-error outcome
while leaving the dedup memory unchanged, the remaining symbols being
processed exactly as they would have been: one failure never aborts the
cycle, and the loop body is total, so the loop has no exit path on
error. -/
theorem symbol_failure_isolated (fastW slowW rsiW : ℕ) (os ob : ℚ) :
    (∀ (inputs : List SymInput) (m : Memory),
      (run_cycle fastW slowW rsiW os ob inputs m).2.length = inputs.length) ∧
    (∀ (pre post : List SymInput) (m : Memory) (sym : String) (tOk lOk : Bool),
      run_cycle fastW slowW rsiW os ob (pre ++ ⟨sym, Except.error (), tOk, lOk⟩ :: post) m
        = ((run_cycle fastW slowW rsiW os ob post (run_cycle fastW slowW rsiW os ob pre m).1).1,
           (run_cycle fastW slowW rsiW os ob pre m).2
             ++ SymOutcome.errorCaught
               :: (run_cycle fastW slowW rsiW os ob post (run_cycle fastW slowW rsiW os ob pre m).1).2)) := by
  constructor
  · intro inputs
    induction inputs with
    | nil => intro m; rfl
    | cons inp rest ih => intro m; simp [run_cycle, ih]
  · intro pre
    induction pre with
    | nil =>
      intro post m sym tOk lOk
      simp [run_cycle, process_symbol]
    | cons inp rest ih =>
      intro post m sym tOk lOk
      simp [run_cycle, ih]

/-- C2 counterexample: with a transport that fails and a log write that
succeeds, a fresh buy signal for AAPL still overwrites the dedup memory,
because `send_email` catches its own exception (lines 43-44) and the
assignment of line 113 runs anyway — the claim that a notification
failure skips the update is false on this code. -/
theorem notify_failure_still_records :
    (process_symbol 1 2 1 (0 : ℚ) 100 ⟨"AAPL", Except.ok [10, 4, 10], false, true⟩ []).1
      = [("AAPL", Signal.buy)] := by
  have hdet : detect_signals 1 2 (0 : ℚ) 100 (compute_indicators 1 2 1 [10, 4, 10])
      = some Signal.buy := by
    have hframe : compute_indicators 1 2 1 [10, 4, 10]
        = [⟨some 10, none, none⟩, ⟨some 4, some 7, some 0⟩, ⟨some 10, some 7, some 100⟩] := by
      norm_num [compute_indicators, sma, rsiAt, avgGainAt, avgLossAt, deltas,
        gainOf, lossOf, List.range_succ]
    rw [hframe]
    norm_num [detect_signals, lastEntry, prevEntry, cross_up, cross_down,
      ole, ogt, oge, olt]
  simp [process_symbol, hdet, shouldEmit, lookupSignal, record,
    send_email_raises, log_write_raises]

/-- C2 as amended: a failing log append leaves the dedup memory untouched,
so the signal is retried next cycle; the notification transport's success
or failure, on the other hand, never influences the resulting memory,
since `send_email` recovers internally — the stored signal is overwritten
exactly when the emission path reaches a successful log append. -/
theorem dedup_update_gating (fastW slowW rsiW : ℕ) (os ob : ℚ) (sym : String)
    (fetch : Except Unit (List ℚ)) (tOk : Bool) (m : Memory) :
    (process_symbol fastW slowW rsiW os ob ⟨sym, fetch, tOk, false⟩ m).1 = m ∧
    ∀ lOk, (process_symbol fastW slowW rsiW os ob ⟨sym, fetch, tOk, lOk⟩ m).1
      = (process_symbol fastW slowW rsiW os ob ⟨sym, fetch, true, lOk⟩ m).1 := by
  constructor
  · cases fetch with
    | error e => rfl
    | ok bars =>
      by_cases hbars : bars.isEmpty
      · simp [process_symbol, hbars]
      · cases hdet : detect_signals fastW slowW os ob (compute_indicators fastW slowW rsiW bars) with
        | none => simp [process_symbol, hbars, hdet]
        | some sig =>
          by_cases hemit : shouldEmit m sym sig <;>
            simp [process_symbol, hbars, hdet, hemit, send_email_raises, log_write_raises]
  · intro lOk
    cases fetch with
    | error e => rfl
    | ok bars =>
      simp [process_symbol, send_email_raises]
